import Mathlib

/-!
Verification of the signal-generation and backtesting core of the
AlgoTrading repository (`algo_trading_system/indicators.py` and
`algo_trading_system/strategy.py`).

Prices enter the pipeline as finite floats; every derived scalar produced by
the pandas code is either a finite value, NaN (undefined / warm-up), or a
signed infinity (from division by zero).  The model `PF` below captures
exactly these cases, with finite values represented exactly as rationals,
and its operations follow IEEE-754 semantics as exposed by numpy/pandas:
any comparison involving NaN is false, `x/0` with `x ≠ 0` is a signed
infinity, `0/0` is NaN, and NaN propagates through arithmetic.
-/

set_option autoImplicit false

namespace AlgoTrading

/-- A pandas/numpy scalar as it occurs in this pipeline: NaN, a signed
infinity, or an exact finite value. -/
inductive PF where
  | nan : PF
  | pinf : PF
  | ninf : PF
  | val : ℚ → PF
deriving DecidableEq, Repr

namespace PF

/-- IEEE addition restricted to the cases occurring here. -/
def add : PF → PF → PF
  | nan, _ => nan
  | _, nan => nan
  | pinf, ninf => nan
  | ninf, pinf => nan
  | pinf, _ => pinf
  | _, pinf => pinf
  | ninf, _ => ninf
  | _, ninf => ninf
  | val a, val b => val (a + b)

/-- IEEE negation. -/
def neg : PF → PF
  | nan => nan
  | pinf => ninf
  | ninf => pinf
  | val a => val (-a)

/-- IEEE subtraction. -/
def sub (x y : PF) : PF := x.add y.neg

/-- IEEE division: `x/±∞ = 0`, `x/0` is a signed infinity for `x ≠ 0`,
`0/0 = NaN`, `±∞/±∞ = NaN`. -/
def div : PF → PF → PF
  | nan, _ => nan
  | _, nan => nan
  | pinf, pinf => nan
  | pinf, ninf => nan
  | ninf, pinf => nan
  | ninf, ninf => nan
  | pinf, val b => if b < 0 then ninf else pinf
  | ninf, val b => if b < 0 then pinf else ninf
  | val _, pinf => val 0
  | val _, ninf => val 0
  | val a, val b =>
      if b = 0 then (if a = 0 then nan else if a < 0 then ninf else pinf)
      else val (a / b)

/-- IEEE strict comparison: false whenever either side is NaN. -/
def lt : PF → PF → Bool
  | nan, _ => false
  | _, nan => false
  | pinf, _ => false
  | ninf, ninf => false
  | ninf, _ => true
  | val _, ninf => false
  | val _, pinf => true
  | val a, val b => decide (a < b)

/-- IEEE non-strict comparison: false whenever either side is NaN. -/
def le : PF → PF → Bool
  | nan, _ => false
  | _, nan => false
  | ninf, _ => true
  | _, pinf => true
  | pinf, _ => false
  | val _, ninf => false
  | val a, val b => decide (a ≤ b)

/-- Embeds `Series.clip(lower=0)` on one scalar: NaN passes through. -/
def clipLower0 : PF → PF
  | nan => nan
  | pinf => pinf
  | ninf => val 0
  | val a => val (max a 0)

/-- Embeds `Series.clip(upper=0)` on one scalar: NaN passes through. -/
def clipUpper0 : PF → PF
  | nan => nan
  | pinf => val 0
  | ninf => ninf
  | val a => val (min a 0)

/-- The scalar is finite or NaN (every value pandas derives from a finite
price series in this pipeline is of this form). -/
def finiteOrNan (x : PF) : Prop := x ≠ pinf ∧ x ≠ ninf

instance (x : PF) : Decidable (finiteOrNan x) := by
  unfold finiteOrNan; infer_instance

end PF

/-! ### Indicator library (`indicators.py`) -/

/-- Embeds `series.diff()`: elementwise difference with the previous entry; the
first entry has no predecessor and is NaN. -/
def diffList (xs : List ℚ) : List PF :=
  (List.range xs.length).map fun t =>
    if t = 0 then PF.nan else PF.val (xs.getD t 0 - xs.getD (t - 1) 0)

/-- Number of non-NaN observations among the first `t+1` entries (what
pandas counts against `min_periods`). -/
def nobs (xs : List PF) (t : ℕ) : ℕ :=
  ((xs.take (t + 1)).filter fun x => x != PF.nan).length

/-- Embeds `series.ewm(alpha=a, min_periods=m).mean()` with the pandas defaults
`adjust=True`, `ignore_na=False`: the output at index `t` is the weighted
average of the non-NaN entries among the first `t+1`, entry `j` carrying
weight `(1-a)^(t-j)`; the output is NaN until `m` observations have
occurred (and in the degenerate all-weights-zero case, which cannot arise
from a finite input series). -/
def ewmMean (a : ℚ) (minp : ℕ) (xs : List PF) : List PF :=
  (List.range xs.length).map fun t =>
    let num := ((List.range (t + 1)).map fun j =>
      match xs.getD j PF.nan with
      | PF.val q => (1 - a) ^ (t - j) * q
      | _ => 0).sum
    let den := ((List.range (t + 1)).map fun j =>
      match xs.getD j PF.nan with
      | PF.val _ => (1 - a) ^ (t - j)
      | _ => (0 : ℚ)).sum
    if nobs xs t < minp then PF.nan
    else if den = 0 then PF.nan
    else PF.val (num / den)

/-- Embeds `calculate_sma`, i.e. `series.rolling(window=w, min_periods=w).mean()` —
NaN until `w` values are available, then the trailing arithmetic mean. -/
def calculate_sma (xs : List ℚ) (window : ℕ) : List PF :=
  (List.range xs.length).map fun t =>
    if t + 1 < window then PF.nan
    else PF.val (((xs.drop (t + 1 - window)).take window).sum / (window : ℚ))

/-- The `gain = delta.clip(lower=0)` series in `calculate_rsi`. -/
def gainSeries (xs : List ℚ) : List PF := (diffList xs).map PF.clipLower0

/-- The `loss = -delta.clip(upper=0)` series in `calculate_rsi`. -/
def lossSeries (xs : List ℚ) : List PF :=
  (diffList xs).map fun d => (d.clipUpper0).neg

/-- The `avg_gain = gain.ewm(alpha=1/period, min_periods=period).mean()` series. -/
def avg_gain (xs : List ℚ) (period : ℕ) : List PF :=
  ewmMean (1 / (period : ℚ)) period (gainSeries xs)

/-- The `avg_loss = loss.ewm(alpha=1/period, min_periods=period).mean()` series. -/
def avg_loss (xs : List ℚ) (period : ℕ) : List PF :=
  ewmMean (1 / (period : ℚ)) period (lossSeries xs)

/-- Embeds `rs = avg_gain / avg_loss; rsi = 100 - (100 / (1 + rs))` on one bar,
with IEEE float semantics. -/
def rsiFromAvgs (g l : PF) : PF :=
  PF.sub (PF.val 100) (PF.div (PF.val 100) (PF.add (PF.val 1) (PF.div g l)))

/-- Embeds `calculate_rsi`: the Wilder-smoothed RSI of a (finite) price series. -/
def calculate_rsi (xs : List ℚ) (period : ℕ) : List PF :=
  List.zipWith rsiFromAvgs (avg_gain xs period) (avg_loss xs period)

/-! ### Signal generation (`strategy.py`, `generate_signals`) -/

/-- One cleaned input row: a trading date (already strictly increasing in
the source data), a finite close price and volume. -/
structure Bar where
  date : ℕ
  close : ℚ
  volume : ℚ
deriving DecidableEq, Repr

/-- One output row of `generate_signals`: the input row plus the indicator
columns and the signal column. -/
structure SignaledBar where
  date : ℕ
  close : ℚ
  volume : ℚ
  rsi : PF
  sma_short : PF
  sma_long : PF
  ma_diff : PF
  ma_diff_prev : PF
  signal : ℕ
deriving DecidableEq, Repr

/-- The `df["ma_diff"] = df["sma_short"] - df["sma_long"]` column
(elementwise float subtraction). -/
def maDiffCol (closes : List ℚ) (short_window long_window : ℕ) : List PF :=
  List.zipWith PF.sub (calculate_sma closes short_window) (calculate_sma closes long_window)

/-- Embeds `generate_signals`: computes `rsi`, `sma_short`, `sma_long`,
`ma_diff = sma_short - sma_long`, `ma_diff_prev = ma_diff.shift(1)`, and
sets `signal = 1` exactly on the rows where `(rsi < 30) & (ma_diff > 0)`
holds (float comparisons, hence false on NaN), `signal = 0` elsewhere. -/
def generate_signals (bars : List Bar) (rsi_period short_window long_window : ℕ) :
    List SignaledBar :=
  let closes := bars.map Bar.close
  let rsiL := calculate_rsi closes rsi_period
  let smaS := calculate_sma closes short_window
  let smaL := calculate_sma closes long_window
  let maDiff := maDiffCol closes short_window long_window
  (List.range bars.length).map fun i =>
    let b := bars.getD i ⟨0, 0, 0⟩
    let r := rsiL.getD i PF.nan
    let md := maDiff.getD i PF.nan
    { date := b.date
      close := b.close
      volume := b.volume
      rsi := r
      sma_short := smaS.getD i PF.nan
      sma_long := smaL.getD i PF.nan
      ma_diff := md
      ma_diff_prev := if i = 0 then PF.nan else maDiff.getD (i - 1) PF.nan
      signal := if PF.lt r (PF.val 30) && PF.lt (PF.val 0) md then 1 else 0 }

/-! ### Backtest simulator (`strategy.py`, `backtest_signals`) -/

/-- A closed round-trip exactly as appended to `trades` in the source:
`entry_date` is an `Option` because the loop variable starts as `None`. -/
structure Trade where
  entry_date : Option ℕ
  exit_date : ℕ
  entry_price : ℚ
  exit_price : ℚ
  shares : ℚ
  pnl : ℚ
  pnl_pct : ℚ
deriving DecidableEq, Repr

/-- The mutable loop state of `backtest_signals`. -/
structure BTState where
  in_position : Bool
  entry_price : ℚ
  entry_date : Option ℕ
  shares : ℚ
  capital : ℚ
deriving DecidableEq, Repr

/-- The state before the first loop iteration. -/
def initState (initial_capital : ℚ) : BTState :=
  { in_position := false
    entry_price := 0
    entry_date := none
    shares := 0
    capital := initial_capital }

/-- The `cross_down = ma_diff_prev >= 0 and ma_diff < 0` test (float comparisons:
false when either side is NaN). -/
def crossDown (b : SignaledBar) : Bool :=
  PF.le (PF.val 0) b.ma_diff_prev && PF.lt b.ma_diff (PF.val 0)

/-- The `overbought = rsi_val > rsi_exit` test (false when `rsi` is NaN). -/
def overbought (rsi_exit : ℚ) (b : SignaledBar) : Bool :=
  PF.lt (PF.val rsi_exit) b.rsi

/-- The state after the entry branch: `entry_price = price`,
`entry_date = date`, `shares = capital / entry_price`; capital untouched. -/
def enterState (s : BTState) (b : SignaledBar) : BTState :=
  { s with
    in_position := true
    entry_price := b.close
    entry_date := some b.date
    shares := s.capital / b.close }

/-- The dict appended to `trades` in the exit branch. -/
def exitTrade (s : BTState) (b : SignaledBar) : Trade :=
  { entry_date := s.entry_date
    exit_date := b.date
    entry_price := s.entry_price
    exit_price := b.close
    shares := s.shares
    pnl := (b.close - s.entry_price) * s.shares
    pnl_pct := (b.close - s.entry_price) * s.shares / (s.entry_price * s.shares) }

/-- The state after the exit branch: capital re-synced by `pnl`, position
cleared (the stale `entry_date` is left as-is, as in the source). -/
def exitState (s : BTState) (b : SignaledBar) : BTState :=
  { s with
    in_position := false
    entry_price := 0
    shares := 0
    capital := s.capital + (b.close - s.entry_price) * s.shares }

/-- The `for i in range(len(df))` loop of `backtest_signals`, one
constructor step per bar; `rest = []` is the `i == len(df) - 1` test. -/
def btLoop (rsi_exit : ℚ) : List SignaledBar → BTState → BTState × List Trade
  | [], s => (s, [])
  | b :: rest, s =>
    if s.in_position = false ∧ b.signal = 1 then
      btLoop rsi_exit rest (enterState s b)
    else if s.in_position = true ∧
        (crossDown b = true ∨ overbought rsi_exit b = true ∨ rest = []) then
      ((btLoop rsi_exit rest (exitState s b)).1,
        exitTrade s b :: (btLoop rsi_exit rest (exitState s b)).2)
    else
      btLoop rsi_exit rest s

/-- The post-loop `trade_df["pnl_pct"] = trade_df["pnl_pct"] * 100`. -/
def scaleTrade (t : Trade) : Trade := { t with pnl_pct := t.pnl_pct * 100 }

/-- The summary dict of `backtest_signals`. -/
structure Summary where
  total_trades : ℕ
  wins : ℕ
  losses : ℕ
  win_rate : ℚ
  cumulative_return_pct : ℚ
deriving DecidableEq, Repr

/-- The summary reduction at the end of `backtest_signals`: counts over the
trade ledger plus the capital-based cumulative return. -/
def mkSummary (trades : List Trade) (final_capital initial_capital : ℚ) : Summary :=
  { total_trades := trades.length
    wins := trades.countP fun t => decide (0 < t.pnl)
    losses := trades.countP fun t => decide (t.pnl ≤ 0)
    win_rate := if trades = [] then 0
      else (trades.countP fun t => decide (0 < t.pnl) : ℚ) / (trades.length : ℚ)
    cumulative_return_pct := (final_capital / initial_capital - 1) * 100 }

/-- Embeds `backtest_signals`: replay the signaled bars through the single-position
state machine, scale the ledger's `pnl_pct` into percentage points, and
reduce the ledger to a summary. -/
def backtest_signals (df : List SignaledBar)
    (initial_capital : ℚ := 100000) (rsi_exit : ℚ := 70) :
    List Trade × Summary :=
  let r := btLoop rsi_exit df (initState initial_capital)
  let trade_df := r.2.map scaleTrade
  (trade_df, mkSummary trade_df r.1.capital initial_capital)

/-! ### Basic facts about the float model and list lengths -/

lemma PF.sub_nan_left (y : PF) : PF.sub PF.nan y = PF.nan := by cases y <;> rfl

lemma PF.sub_nan_right (x : PF) : PF.sub x PF.nan = PF.nan := by cases x <;> rfl

lemma PF.lt_nan_left (y : PF) : PF.lt PF.nan y = false := by cases y <;> rfl

lemma PF.lt_nan_right (x : PF) : PF.lt x PF.nan = false := by cases x <;> rfl

lemma PF.le_nan_left (y : PF) : PF.le PF.nan y = false := by cases y <;> rfl

lemma PF.le_nan_right (x : PF) : PF.le x PF.nan = false := by cases x <;> rfl

@[simp] lemma diffList_length (xs : List ℚ) : (diffList xs).length = xs.length := by
  simp [diffList]

@[simp] lemma ewmMean_length (a : ℚ) (minp : ℕ) (xs : List PF) :
    (ewmMean a minp xs).length = xs.length := by
  simp [ewmMean]

@[simp] lemma calculate_sma_length (xs : List ℚ) (w : ℕ) :
    (calculate_sma xs w).length = xs.length := by
  simp [calculate_sma]

@[simp] lemma gainSeries_length (xs : List ℚ) : (gainSeries xs).length = xs.length := by
  simp [gainSeries]

@[simp] lemma lossSeries_length (xs : List ℚ) : (lossSeries xs).length = xs.length := by
  simp [lossSeries]

@[simp] lemma avg_gain_length (xs : List ℚ) (p : ℕ) :
    (avg_gain xs p).length = xs.length := by
  simp [avg_gain]

@[simp] lemma avg_loss_length (xs : List ℚ) (p : ℕ) :
    (avg_loss xs p).length = xs.length := by
  simp [avg_loss]

@[simp] lemma calculate_rsi_length (xs : List ℚ) (p : ℕ) :
    (calculate_rsi xs p).length = xs.length := by
  simp [calculate_rsi]

@[simp] lemma maDiffCol_length (closes : List ℚ) (p2 p3 : ℕ) :
    (maDiffCol closes p2 p3).length = closes.length := by
  simp [maDiffCol]

@[simp] lemma generate_signals_length (bars : List Bar) (p1 p2 p3 : ℕ) :
    (generate_signals bars p1 p2 p3).length = bars.length := by
  simp [generate_signals]

/-! ### C8: row preservation of `generate_signals` -/

/-- C8: for every input Bar sequence, `generate_signals` emits exactly one
SignaledBar per input Bar, in the same order — the output has the same
length and the carried-over date/close/volume columns agree row by row. -/
theorem generate_signals_preserves_rows (bars : List Bar) (p1 p2 p3 : ℕ) :
    (generate_signals bars p1 p2 p3).length = bars.length ∧
    (generate_signals bars p1 p2 p3).map (fun sb => (sb.date, sb.close, sb.volume)) =
      bars.map (fun b => (b.date, b.close, b.volume)) := by
  refine ⟨generate_signals_length bars p1 p2 p3, ?_⟩
  apply List.ext_getElem
  · simp
  · intro i h1 h2
    have hi : i < bars.length := by simpa using h2
    simp [generate_signals, List.getElem?_eq_getElem hi]

/-! ### C3: the signal rule -/

lemma maDiffCol_getD (closes : List ℚ) (p2 p3 i : ℕ) (hi : i < closes.length) :
    (maDiffCol closes p2 p3).getD i PF.nan =
      PF.sub ((calculate_sma closes p2).getD i PF.nan)
        ((calculate_sma closes p3).getD i PF.nan) := by
  have hz : i < (maDiffCol closes p2 p3).length := by simpa using hi
  have h2 : i < (calculate_sma closes p2).length := by simpa using hi
  have h3 : i < (calculate_sma closes p3).length := by simpa using hi
  rw [List.getD_eq_getElem _ _ hz, List.getD_eq_getElem _ _ h2, List.getD_eq_getElem _ _ h3]
  simp only [maDiffCol, List.getElem_zipWith]

lemma generate_signals_getElem (bars : List Bar) (p1 p2 p3 i : ℕ)
    (hi : i < (generate_signals bars p1 p2 p3).length) :
    (generate_signals bars p1 p2 p3)[i] =
      { date := (bars.getD i ⟨0, 0, 0⟩).date
        close := (bars.getD i ⟨0, 0, 0⟩).close
        volume := (bars.getD i ⟨0, 0, 0⟩).volume
        rsi := (calculate_rsi (bars.map Bar.close) p1).getD i PF.nan
        sma_short := (calculate_sma (bars.map Bar.close) p2).getD i PF.nan
        sma_long := (calculate_sma (bars.map Bar.close) p3).getD i PF.nan
        ma_diff := (maDiffCol (bars.map Bar.close) p2 p3).getD i PF.nan
        ma_diff_prev := if i = 0 then PF.nan
          else (maDiffCol (bars.map Bar.close) p2 p3).getD (i - 1) PF.nan
        signal := if PF.lt ((calculate_rsi (bars.map Bar.close) p1).getD i PF.nan)
              (PF.val 30) &&
            PF.lt (PF.val 0) ((maDiffCol (bars.map Bar.close) p2 p3).getD i PF.nan)
          then 1 else 0 } := by
  simp [generate_signals]

/-- C3: on every output bar of `generate_signals`, signal = 1 exactly when
the float comparisons rsi < 30 and ma_diff > 0 both hold (so signal is
always 0 or 1), and on every bar where rsi, sma_short or sma_long is still
undefined (NaN) the buy condition evaluates to false and signal = 0. -/
theorem signal_rule_characterization (bars : List Bar) (p1 p2 p3 i : ℕ)
    (hi : i < (generate_signals bars p1 p2 p3).length) :
    ((generate_signals bars p1 p2 p3)[i].signal = 1 ↔
      (PF.lt (generate_signals bars p1 p2 p3)[i].rsi (PF.val 30) = true ∧
        PF.lt (PF.val 0) (generate_signals bars p1 p2 p3)[i].ma_diff = true)) ∧
    (((generate_signals bars p1 p2 p3)[i].rsi = PF.nan ∨
      (generate_signals bars p1 p2 p3)[i].sma_short = PF.nan ∨
      (generate_signals bars p1 p2 p3)[i].sma_long = PF.nan) →
      (generate_signals bars p1 p2 p3)[i].signal = 0) ∧
    ((generate_signals bars p1 p2 p3)[i].signal = 0 ∨
      (generate_signals bars p1 p2 p3)[i].signal = 1) := by
  have hb : i < bars.length := by simpa using hi
  have hc : i < (bars.map Bar.close).length := by simpa using hb
  rw [generate_signals_getElem bars p1 p2 p3 i hi]
  dsimp only
  rw [maDiffCol_getD _ _ _ _ hc]
  generalize (calculate_rsi (bars.map Bar.close) p1).getD i PF.nan = x
  generalize (calculate_sma (bars.map Bar.close) p2).getD i PF.nan = y
  generalize (calculate_sma (bars.map Bar.close) p3).getD i PF.nan = z
  refine ⟨?_, ?_, ?_⟩
  · by_cases h1 : PF.lt x (PF.val 30) = true <;>
      by_cases h2 : PF.lt (PF.val 0) (PF.sub y z) = true <;> simp [h1, h2]
  · rintro (h | h | h) <;> subst h <;>
      simp [PF.lt_nan_left, PF.lt_nan_right, PF.sub_nan_left, PF.sub_nan_right]
  · by_cases h : (PF.lt x (PF.val 30) && PF.lt (PF.val 0) (PF.sub y z)) = true <;> simp [h]

/-- Witness for C3 at a concrete one-bar input (all indicators undefined at
bar 0, so the signal there is 0). -/
theorem signal_rule_characterization_witness :
    0 < (generate_signals [⟨0, 5, 1⟩] 14 20 50).length ∧
    (((generate_signals [⟨0, 5, 1⟩] 14 20 50)[0].signal = 1 ↔
      (PF.lt (generate_signals [⟨0, 5, 1⟩] 14 20 50)[0].rsi (PF.val 30) = true ∧
        PF.lt (PF.val 0) (generate_signals [⟨0, 5, 1⟩] 14 20 50)[0].ma_diff = true)) ∧
    (((generate_signals [⟨0, 5, 1⟩] 14 20 50)[0].rsi = PF.nan ∨
      (generate_signals [⟨0, 5, 1⟩] 14 20 50)[0].sma_short = PF.nan ∨
      (generate_signals [⟨0, 5, 1⟩] 14 20 50)[0].sma_long = PF.nan) →
      (generate_signals [⟨0, 5, 1⟩] 14 20 50)[0].signal = 0) ∧
    ((generate_signals [⟨0, 5, 1⟩] 14 20 50)[0].signal = 0 ∨
      (generate_signals [⟨0, 5, 1⟩] 14 20 50)[0].signal = 1)) :=
  ⟨by simp, signal_rule_characterization [⟨0, 5, 1⟩] 14 20 50 0 (by simp)⟩

/-! ### C2: the backtest state machine, one step -/

lemma PF.le_val_left_iff (q : ℚ) (x : PF) (hx : x.finiteOrNan) :
    PF.le (PF.val q) x = true ↔ ∃ p, x = PF.val p ∧ q ≤ p := by
  cases x with
  | nan => simp [PF.le_nan_right]
  | pinf => exact absurd rfl hx.1
  | ninf => exact absurd rfl hx.2
  | val p => simp [PF.le]

lemma PF.lt_val_left_iff (q : ℚ) (x : PF) (hx : x.finiteOrNan) :
    PF.lt (PF.val q) x = true ↔ ∃ p, x = PF.val p ∧ q < p := by
  cases x with
  | nan => simp [PF.lt_nan_right]
  | pinf => exact absurd rfl hx.1
  | ninf => exact absurd rfl hx.2
  | val p => simp [PF.lt]

lemma PF.lt_val_right_iff (q : ℚ) (x : PF) (hx : x.finiteOrNan) :
    PF.lt x (PF.val q) = true ↔ ∃ p, x = PF.val p ∧ p < q := by
  cases x with
  | nan => simp [PF.lt_nan_left]
  | pinf => exact absurd rfl hx.1
  | ninf => exact absurd rfl hx.2
  | val p => simp [PF.lt]

/-- C2: one iteration of the `backtest_signals` loop is exactly the
specified state machine.  When flat and the bar's signal is 1 the loop
enters (entry price = close, shares = capital / close, capital untouched,
no trade appended) and moves straight to the next bar; when flat without a
signal it does nothing; while in a position it closes the position exactly
when `ma_diff` crosses from ≥ 0 to < 0, or rsi exceeds `rsi_exit`, or the
bar is the last one, appending the trade with the specified pnl fields and
re-syncing capital, and otherwise does nothing. -/
theorem backtest_step_characterization (rexit : ℚ) (b : SignaledBar)
    (rest : List SignaledBar) (s : BTState)
    (h1 : b.ma_diff_prev.finiteOrNan) (h2 : b.ma_diff.finiteOrNan)
    (h3 : b.rsi.finiteOrNan) :
    (s.in_position = false → b.signal = 1 →
      btLoop rexit (b :: rest) s = btLoop rexit rest (enterState s b) ∧
      (enterState s b).in_position = true ∧
      (enterState s b).entry_price = b.close ∧
      (enterState s b).entry_date = some b.date ∧
      (enterState s b).shares = s.capital / b.close ∧
      (enterState s b).capital = s.capital) ∧
    (s.in_position = false → b.signal ≠ 1 →
      btLoop rexit (b :: rest) s = btLoop rexit rest s) ∧
    (s.in_position = true →
      (((crossDown b = true ∨ overbought rexit b = true ∨ rest = []) →
        btLoop rexit (b :: rest) s =
          ((btLoop rexit rest (exitState s b)).1,
            exitTrade s b :: (btLoop rexit rest (exitState s b)).2) ∧
        (exitTrade s b).pnl = (b.close - s.entry_price) * s.shares ∧
        (exitTrade s b).pnl_pct = (exitTrade s b).pnl / (s.entry_price * s.shares) ∧
        (exitTrade s b).entry_date = s.entry_date ∧
        (exitTrade s b).exit_date = b.date ∧
        (exitState s b).capital = s.capital + (exitTrade s b).pnl ∧
        (exitState s b).in_position = false) ∧
      ((¬(crossDown b = true ∨ overbought rexit b = true ∨ rest = [])) →
        btLoop rexit (b :: rest) s = btLoop rexit rest s) ∧
      (crossDown b = true ↔
        ((∃ p, b.ma_diff_prev = PF.val p ∧ 0 ≤ p) ∧
          ∃ m, b.ma_diff = PF.val m ∧ m < 0)) ∧
      (overbought rexit b = true ↔ ∃ r, b.rsi = PF.val r ∧ rexit < r))) := by
  refine ⟨?_, ?_, ?_⟩
  · intro hs hsig
    rw [btLoop, if_pos ⟨hs, hsig⟩]
    exact ⟨rfl, rfl, rfl, rfl, rfl, rfl⟩
  · intro hs hsig
    rw [btLoop, if_neg (by rintro ⟨-, hx⟩; exact hsig hx),
      if_neg (by rintro ⟨hx, -⟩; rw [hs] at hx; cases hx)]
  · intro hs
    refine ⟨?_, ?_, ?_, ?_⟩
    · intro hex
      rw [btLoop, if_neg (by rintro ⟨hx, -⟩; rw [hs] at hx; cases hx), if_pos ⟨hs, hex⟩]
      exact ⟨rfl, rfl, rfl, rfl, rfl, rfl, rfl⟩
    · intro hex
      rw [btLoop, if_neg (by rintro ⟨hx, -⟩; rw [hs] at hx; cases hx),
        if_neg (by rintro ⟨-, hx⟩; exact hex hx)]
    · rw [crossDown, Bool.and_eq_true, PF.le_val_left_iff _ _ h1,
        PF.lt_val_right_iff _ _ h2]
    · rw [overbought, PF.lt_val_left_iff _ _ h3]

/-- A concrete bar that triggers an entry (signal 1). -/
def sbEntry : SignaledBar :=
  { date := 0, close := 10, volume := 1, rsi := PF.val 25, sma_short := PF.val 5
    sma_long := PF.val 4, ma_diff := PF.val 1, ma_diff_prev := PF.nan, signal := 1 }

/-- A concrete bar that triggers an exit (rsi 80 > 70). -/
def sbExit : SignaledBar :=
  { date := 1, close := 12, volume := 1, rsi := PF.val 80, sma_short := PF.val 5
    sma_long := PF.val 4, ma_diff := PF.val 1, ma_diff_prev := PF.val 1, signal := 0 }

/-- Witness for C2: the entry step at a concrete bar. -/
theorem backtest_step_characterization_witness :
    PF.finiteOrNan sbEntry.ma_diff_prev ∧ PF.finiteOrNan sbEntry.ma_diff ∧
    PF.finiteOrNan sbEntry.rsi ∧
    btLoop 70 [sbEntry, sbExit] (initState 100000) =
      btLoop 70 [sbExit] (enterState (initState 100000) sbEntry) :=
  ⟨by decide, by decide, by decide,
    ((backtest_step_characterization 70 sbEntry [sbExit] (initState 100000)
      (by decide) (by decide) (by decide)).1 rfl rfl).1⟩

/-! ### C1: position resolution at the end of the sequence -/

lemma btLoop_closes_open_position (rexit : ℚ) (bars : List SignaledBar) :
    ∀ s : BTState, s.in_position = true → bars ≠ [] →
      ∃ t ts', (btLoop rexit bars s).2 = t :: ts' ∧ t.entry_date = s.entry_date ∧
        t.entry_price = s.entry_price ∧ t.shares = s.shares := by
  induction bars with
  | nil => intro s _ h; exact absurd rfl h
  | cons b rest ih =>
    intro s hs _
    rw [btLoop, if_neg (by rintro ⟨hx, -⟩; rw [hs] at hx; cases hx)]
    by_cases hex : crossDown b = true ∨ overbought rexit b = true ∨ rest = []
    · rw [if_pos ⟨hs, hex⟩]
      exact ⟨exitTrade s b, (btLoop rexit rest (exitState s b)).2, rfl, rfl, rfl, rfl⟩
    · rw [if_neg (by rintro ⟨-, hx⟩; exact hex hx)]
      exact ih s hs fun h => hex (Or.inr (Or.inr h))

lemma btLoop_final_in_position (rexit : ℚ) (bars : List SignaledBar) :
    ∀ s : BTState, bars ≠ [] → (btLoop rexit bars s).1.in_position = true →
      ∃ b, bars.getLast? = some b ∧ b.signal = 1 ∧
        (btLoop rexit bars s).1.entry_date = some b.date ∧
        (btLoop rexit bars s).1.entry_price = b.close := by
  induction bars with
  | nil => intro s h; exact absurd rfl h
  | cons b rest ih =>
    intro s _ hpos
    cases rest with
    | nil =>
      by_cases h1 : s.in_position = false ∧ b.signal = 1
      · rw [btLoop, if_pos h1]
        exact ⟨b, by simp, h1.2, rfl, rfl⟩
      · by_cases h2 : s.in_position = true
        · rw [btLoop, if_neg h1, if_pos ⟨h2, Or.inr (Or.inr rfl)⟩] at hpos
          simp [btLoop, exitState] at hpos
        · have h2' : s.in_position = false := by
            cases hv : s.in_position
            · rfl
            · exact absurd hv h2
          rw [btLoop, if_neg h1,
            if_neg (by rintro ⟨hx, -⟩; rw [h2'] at hx; cases hx), btLoop] at hpos
          rw [h2'] at hpos
          cases hpos
    | cons b2 rest2 =>
      have hne : b2 :: rest2 ≠ [] := by simp
      by_cases h1 : s.in_position = false ∧ b.signal = 1
      · rw [btLoop, if_pos h1] at hpos ⊢
        obtain ⟨b', hlast, hsig, hdate, hprice⟩ := ih (enterState s b) hne hpos
        exact ⟨b', by simpa using hlast, hsig, hdate, hprice⟩
      · by_cases h2 : s.in_position = true ∧
            (crossDown b = true ∨ overbought rexit b = true ∨ b2 :: rest2 = [])
        · rw [btLoop, if_neg h1, if_pos h2] at hpos ⊢
          obtain ⟨b', hlast, hsig, hdate, hprice⟩ := ih (exitState s b) hne hpos
          exact ⟨b', by simpa using hlast, hsig, hdate, hprice⟩
        · rw [btLoop, if_neg h1, if_neg h2] at hpos ⊢
          obtain ⟨b', hlast, hsig, hdate, hprice⟩ := ih s hne hpos
          exact ⟨b', by simpa using hlast, hsig, hdate, hprice⟩

/-- C1 (amended): `backtest_signals` closes every position entered before
the last bar — whenever the state is in a position and at least one bar
remains, the produced ledger starts with a trade closing exactly that
position — but a position whose entry-triggering bar is the LAST bar of
the sequence is left unresolved: the loop ends still in position, which
can only happen when the last bar carried the entry signal, and the entry
produces no closing trade at all (rather than a pnl-0 trade at that bar's
close, as the original claim states). -/
theorem backtest_position_resolution (rexit : ℚ) :
    (∀ (bars : List SignaledBar) (s : BTState), s.in_position = true → bars ≠ [] →
      ∃ t ts', (btLoop rexit bars s).2 = t :: ts' ∧ t.entry_date = s.entry_date ∧
        t.entry_price = s.entry_price ∧ t.shares = s.shares) ∧
    (∀ (bars : List SignaledBar) (cap : ℚ),
      (btLoop rexit bars (initState cap)).1.in_position = true →
      ∃ b, bars.getLast? = some b ∧ b.signal = 1 ∧
        (btLoop rexit bars (initState cap)).1.entry_date = some b.date) ∧
    (∀ (b : SignaledBar) (s : BTState), s.in_position = false → b.signal = 1 →
      btLoop rexit [b] s = (enterState s b, [])) := by
  refine ⟨fun bars s => btLoop_closes_open_position rexit bars s, ?_, ?_⟩
  · intro bars cap hpos
    cases bars with
    | nil => cases hpos
    | cons b rest =>
      obtain ⟨b', hlast, hsig, hdate, -⟩ :=
        btLoop_final_in_position rexit (b :: rest) (initState cap) (by simp) hpos
      exact ⟨b', hlast, hsig, hdate⟩
  · intro b s hs hsig
    rw [btLoop, if_pos ⟨hs, hsig⟩, btLoop]

/-- A bar whose entry signal fires on the last bar of the sequence. -/
def sbLastEntry : SignaledBar :=
  { date := 0, close := 10, volume := 1, rsi := PF.nan, sma_short := PF.nan
    sma_long := PF.nan, ma_diff := PF.nan, ma_diff_prev := PF.nan, signal := 1 }

/-- C1 counterexample: on a one-bar sequence whose only bar carries the
entry signal, the backtest enters and the loop ends still in position —
the ledger is empty (no pnl-0 trade is recorded), so the entry never
produces a closing trade. -/
theorem backtest_lastbar_entry_unresolved :
    sbLastEntry.signal = 1 ∧
    (btLoop 70 [sbLastEntry] (initState 100000)).1.in_position = true ∧
    (backtest_signals [sbLastEntry] 100000 70).1 = [] ∧
    (backtest_signals [sbLastEntry] 100000 70).2.total_trades = 0 := by
  refine ⟨rfl, ?_, ?_, ?_⟩ <;> with_unfolding_all decide

/-- Witness for C1 (amended) at a concrete input: an open position with one
bar remaining is force-closed, and entry on the last bar leaves the loop
in position with no trade. -/
theorem backtest_position_resolution_witness :
    ((enterState (initState 100000) sbEntry).in_position = true ∧ [sbExit] ≠ [] ∧
      ∃ t ts', (btLoop 70 [sbExit] (enterState (initState 100000) sbEntry)).2 = t :: ts' ∧
        t.entry_date = (enterState (initState 100000) sbEntry).entry_date ∧
        t.entry_price = (enterState (initState 100000) sbEntry).entry_price ∧
        t.shares = (enterState (initState 100000) sbEntry).shares) ∧
    (sbLastEntry.signal = 1 ∧
      btLoop 70 [sbLastEntry] (initState 100000) =
        (enterState (initState 100000) sbLastEntry, [])) :=
  ⟨⟨rfl, by simp,
    (backtest_position_resolution 70).1 [sbExit] (enterState (initState 100000) sbEntry)
      rfl (by simp)⟩,
   ⟨rfl, (backtest_position_resolution 70).2.2 sbLastEntry (initState 100000) rfl rfl⟩⟩

/-! ### C5: trade invariants -/

/-- Whole-capital sizing along a ledger: each trade's shares equal the
capital available at its entry divided by its entry price, where available
capital starts at the given amount and is re-synced by each pnl. -/
def sharesOK : ℚ → List Trade → Bool
  | _, [] => true
  | c, t :: ts => (t.shares == c / t.entry_price) && sharesOK (c + t.pnl) ts

lemma btLoop_sharesOK (rexit : ℚ) (bars : List SignaledBar) :
    ∀ s : BTState, (s.in_position = true → s.shares = s.capital / s.entry_price) →
      sharesOK s.capital (btLoop rexit bars s).2 = true := by
  induction bars with
  | nil => intro s _; rfl
  | cons b rest ih =>
    intro s hinv
    by_cases h1 : s.in_position = false ∧ b.signal = 1
    · rw [btLoop, if_pos h1]
      exact ih (enterState s b) fun _ => rfl
    · by_cases h2 : s.in_position = true ∧
          (crossDown b = true ∨ overbought rexit b = true ∨ rest = [])
      · rw [btLoop, if_neg h1, if_pos h2]
        have hsh : s.shares = s.capital / s.entry_price := hinv h2.1
        have htail : sharesOK ((exitState s b).capital)
            (btLoop rexit rest (exitState s b)).2 = true :=
          ih (exitState s b) (by intro h; simp [exitState] at h)
        rw [sharesOK, Bool.and_eq_true]
        exact ⟨by simp [exitTrade, hsh], htail⟩
      · rw [btLoop, if_neg h1, if_neg h2]
        exact ih s hinv

lemma btLoop_dates (rexit : ℚ) (bars : List SignaledBar) :
    ∀ s : BTState, bars.Pairwise (fun a b => a.date < b.date) →
      (s.in_position = true → ∃ d, s.entry_date = some d ∧ ∀ b ∈ bars, d < b.date) →
      ∀ t ∈ (btLoop rexit bars s).2, ∃ d, t.entry_date = some d ∧ d < t.exit_date := by
  induction bars with
  | nil => intro s _ _ t ht; simp [btLoop] at ht
  | cons b rest ih =>
    intro s hpw hinv t ht
    have hpw' := List.pairwise_cons.1 hpw
    by_cases h1 : s.in_position = false ∧ b.signal = 1
    · rw [btLoop, if_pos h1] at ht
      exact ih (enterState s b) hpw'.2 (fun _ => ⟨b.date, rfl, hpw'.1⟩) t ht
    · by_cases h2 : s.in_position = true ∧
          (crossDown b = true ∨ overbought rexit b = true ∨ rest = [])
      · rw [btLoop, if_neg h1, if_pos h2] at ht
        rcases List.mem_cons.1 ht with rfl | ht'
        · obtain ⟨d, hd, hlt⟩ := hinv h2.1
          exact ⟨d, hd, hlt b (List.mem_cons_self b rest)⟩
        · exact ih (exitState s b) hpw'.2 (by intro h; simp [exitState] at h) t ht'
      · rw [btLoop, if_neg h1, if_neg h2] at ht
        refine ih s hpw'.2 ?_ t ht
        intro hp
        obtain ⟨d, hd, hlt⟩ := hinv hp
        exact ⟨d, hd, fun b' hb' => hlt b' (List.mem_cons_of_mem b hb')⟩

lemma sharesOK_map_scale (ts : List Trade) :
    ∀ c : ℚ, sharesOK c (ts.map scaleTrade) = sharesOK c ts := by
  induction ts with
  | nil => intro c; rfl
  | cons t ts ih => intro c; simp [sharesOK, scaleTrade, ih]

/-- C5: every Trade produced by `backtest_signals` (given the source's
strictly increasing trading dates) exits strictly after it enters, and its
shares equal the capital available at its entry divided by its entry
price — the whole capital is committed at entry. -/
theorem trade_invariants (df : List SignaledBar) (cap rexit : ℚ)
    (hdates : df.Pairwise (fun a b => a.date < b.date)) :
    (∀ t ∈ (backtest_signals df cap rexit).1,
      ∃ d, t.entry_date = some d ∧ d < t.exit_date) ∧
    sharesOK cap (backtest_signals df cap rexit).1 = true := by
  have hre : (backtest_signals df cap rexit).1 =
      (btLoop rexit df (initState cap)).2.map scaleTrade := rfl
  constructor
  · intro t ht
    rw [hre] at ht
    obtain ⟨t0, ht0, rfl⟩ := List.mem_map.1 ht
    obtain ⟨d, hd, hdt⟩ := btLoop_dates rexit df (initState cap) hdates
      (by intro h; simp [initState] at h) t0 ht0
    exact ⟨d, hd, hdt⟩
  · rw [hre, sharesOK_map_scale]
    exact btLoop_sharesOK rexit df (initState cap) (by intro h; simp [initState] at h)

/-- Witness for C5 at a concrete two-bar run producing one trade. -/
theorem trade_invariants_witness :
    ([sbEntry, sbExit].Pairwise fun a b => a.date < b.date) ∧
    (∀ t ∈ (backtest_signals [sbEntry, sbExit] 100000 70).1,
      ∃ d, t.entry_date = some d ∧ d < t.exit_date) ∧
    sharesOK 100000 (backtest_signals [sbEntry, sbExit] 100000 70).1 = true :=
  ⟨by simp [sbEntry, sbExit],
    trade_invariants [sbEntry, sbExit] 100000 70 (by simp [sbEntry, sbExit])⟩

/-! ### C4: RSI at zero average loss -/

lemma calculate_rsi_getD (xs : List ℚ) (p t : ℕ) (ht : t < xs.length) :
    (calculate_rsi xs p).getD t PF.nan =
      rsiFromAvgs ((avg_gain xs p).getD t PF.nan) ((avg_loss xs p).getD t PF.nan) := by
  have h1 : t < (calculate_rsi xs p).length := by simpa using ht
  have h2 : t < (avg_gain xs p).length := by simpa using ht
  have h3 : t < (avg_loss xs p).length := by simpa using ht
  rw [List.getD_eq_getElem _ _ h1, List.getD_eq_getElem _ _ h2, List.getD_eq_getElem _ _ h3]
  simp only [calculate_rsi, List.getElem_zipWith]

lemma rsiFromAvgs_zero_zero : rsiFromAvgs (PF.val 0) (PF.val 0) = PF.nan := by
  with_unfolding_all decide

lemma rsiFromAvgs_val_zero (g : ℚ) (hg : g ≠ 0) :
    rsiFromAvgs (PF.val g) (PF.val 0) = PF.val 100 := by
  rcases lt_trichotomy g 0 with h | h | h
  · simp [rsiFromAvgs, PF.div, PF.add, PF.sub, PF.neg, hg, h]
  · exact absurd h hg
  · simp [rsiFromAvgs, PF.div, PF.add, PF.sub, PF.neg, hg, not_lt.2 (le_of_lt h)]

/-- C4 (amended): past the warm-up, a bar with avg_loss = 0 gets rsi = 100
only when avg_gain is nonzero there; when avg_gain is also 0 (e.g. on a
constant price series) `rs = 0/0` is NaN and the rsi of that bar is NaN,
not 100.  Either way the division by zero is a defined numeric case of the
float arithmetic, never an exception. -/
theorem rsi_avg_loss_zero (xs : List ℚ) (p t : ℕ) (ht : t < xs.length)
    (hL : (avg_loss xs p).getD t PF.nan = PF.val 0) :
    ((avg_gain xs p).getD t PF.nan = PF.val 0 →
      (calculate_rsi xs p).getD t PF.nan = PF.nan) ∧
    (∀ g : ℚ, (avg_gain xs p).getD t PF.nan = PF.val g → g ≠ 0 →
      (calculate_rsi xs p).getD t PF.nan = PF.val 100) := by
  constructor
  · intro hG
    rw [calculate_rsi_getD xs p t ht, hG, hL, rsiFromAvgs_zero_zero]
  · intro g hG hg
    rw [calculate_rsi_getD xs p t ht, hG, hL, rsiFromAvgs_val_zero g hg]

/-- C4 counterexample: on the constant price series 5,…,5 (15 bars) with
the default period 14, bar 14 is past the warm-up and its avg_loss is 0,
yet its rsi is NaN (from rs = 0/0), not 100 as the claim states. -/
theorem rsi_avg_loss_zero_counterexample :
    (avg_loss (List.replicate 15 5) 14).getD 14 PF.nan = PF.val 0 ∧
    (avg_gain (List.replicate 15 5) 14).getD 14 PF.nan = PF.val 0 ∧
    (calculate_rsi (List.replicate 15 5) 14).getD 14 PF.nan = PF.nan ∧
    (calculate_rsi (List.replicate 15 5) 14).getD 14 PF.nan ≠ PF.val 100 := by
  refine ⟨?_, ?_, ?_, ?_⟩ <;> with_unfolding_all decide

/-- Witness for C4 (amended) on a rising two-bar series where avg_loss = 0
and avg_gain = 1 ≠ 0, so the rsi is exactly 100. -/
theorem rsi_avg_loss_zero_witness :
    (1 < ([5, 6] : List ℚ).length ∧
      (avg_loss [5, 6] 1).getD 1 PF.nan = PF.val 0 ∧
      (avg_gain [5, 6] 1).getD 1 PF.nan = PF.val 1 ∧ (1 : ℚ) ≠ 0) ∧
    (calculate_rsi [5, 6] 1).getD 1 PF.nan = PF.val 100 :=
  ⟨⟨by decide, by with_unfolding_all decide, by with_unfolding_all decide, by norm_num⟩,
    (rsi_avg_loss_zero [5, 6] 1 1 (by decide) (by with_unfolding_all decide)).2 1
      (by with_unfolding_all decide) (by norm_num)⟩

/-! ### C6 and C10: summary accounting -/

lemma wins_add_losses (ts : List Trade) :
    (ts.countP fun t => decide (0 < t.pnl)) + (ts.countP fun t => decide (t.pnl ≤ 0)) =
      ts.length := by
  induction ts with
  | nil => rfl
  | cons t ts ih =>
    rcases le_or_lt t.pnl 0 with h | h
    · simp only [List.countP_cons, List.length_cons, decide_eq_true_eq, h,
        not_lt.2 h, decide_eq_false_iff_not]
      simp [h, not_lt.2 h]
      omega
    · simp [List.countP_cons, h, not_le.2 h]
      omega

/-- C6: in every run, wins + losses = total_trades, win_rate is
wins/total_trades (0 when there are no trades), cumulative_return_pct is
(final_capital / initial_capital - 1) * 100, and the reported ledger is the
raw trade list with pnl_pct scaled by 100. -/
theorem summary_consistency (df : List SignaledBar) (cap rexit : ℚ) :
    (backtest_signals df cap rexit).2.wins + (backtest_signals df cap rexit).2.losses =
      (backtest_signals df cap rexit).2.total_trades ∧
    (backtest_signals df cap rexit).2.win_rate =
      (if (backtest_signals df cap rexit).2.total_trades = 0 then 0
       else ((backtest_signals df cap rexit).2.wins : ℚ) /
         ((backtest_signals df cap rexit).2.total_trades : ℚ)) ∧
    (backtest_signals df cap rexit).2.cumulative_return_pct =
      ((btLoop rexit df (initState cap)).1.capital / cap - 1) * 100 ∧
    (backtest_signals df cap rexit).1 =
      (btLoop rexit df (initState cap)).2.map
        (fun t => { t with pnl_pct := t.pnl_pct * 100 }) := by
  refine ⟨?_, ?_, rfl, rfl⟩
  · exact wins_add_losses _
  · show (if (btLoop rexit df (initState cap)).2.map scaleTrade = [] then (0:ℚ) else _) = _
    rcases h : (btLoop rexit df (initState cap)).2.map scaleTrade with _ | ⟨t, ts⟩
    · simp [backtest_signals, mkSummary, h]
    · simp [backtest_signals, mkSummary, h]

lemma countP_nonpos_split (ts : List Trade) :
    (ts.countP fun t => decide (t.pnl ≤ 0)) =
      (ts.countP fun t => decide (t.pnl < 0)) +
      (ts.countP fun t => decide (t.pnl = 0)) := by
  induction ts with
  | nil => rfl
  | cons t ts ih =>
    rcases lt_trichotomy t.pnl 0 with h | h | h
    · simp [List.countP_cons, h, le_of_lt h, ne_of_lt h]
      omega
    · simp [List.countP_cons, h, le_of_eq h]
      omega
    · simp [List.countP_cons, h, not_le.2 h, not_lt.2 (le_of_lt h), ne_of_gt h]
      omega

/-- C10: wins counts the trades with pnl > 0 and losses counts the trades
with pnl < 0 together with the break-even trades (pnl = 0), so a zero-pnl
trade is counted as a loss and never as a win. -/
theorem breakeven_trades_are_losses (df : List SignaledBar) (cap rexit : ℚ) :
    (backtest_signals df cap rexit).2.wins =
      ((backtest_signals df cap rexit).1.countP fun t => decide (0 < t.pnl)) ∧
    (backtest_signals df cap rexit).2.losses =
      ((backtest_signals df cap rexit).1.countP fun t => decide (t.pnl < 0)) +
      ((backtest_signals df cap rexit).1.countP fun t => decide (t.pnl = 0)) := by
  exact ⟨rfl, countP_nonpos_split _⟩

/-! ### C9: determinism -/

/-- C9: `generate_signals` and `backtest_signals` are pure functions of
their inputs — equal input sequences and parameters give equal signaled
sequences and equal ledger/summary pairs. -/
theorem pipeline_deterministic (bars bars' : List Bar) (df df' : List SignaledBar)
    (p1 p2 p3 : ℕ) (cap rexit : ℚ) (h1 : bars = bars') (h2 : df = df') :
    generate_signals bars p1 p2 p3 = generate_signals bars' p1 p2 p3 ∧
    backtest_signals df cap rexit = backtest_signals df' cap rexit := by
  subst h1; subst h2; exact ⟨rfl, rfl⟩

/-- Witness for C9 at a concrete input. -/
theorem pipeline_deterministic_witness :
    generate_signals [⟨0, 5, 1⟩] 14 20 50 = generate_signals [⟨0, 5, 1⟩] 14 20 50 ∧
    backtest_signals [] 100000 70 = backtest_signals [] 100000 70 :=
  pipeline_deterministic [⟨0, 5, 1⟩] [⟨0, 5, 1⟩] [] [] 14 20 50 100000 70 rfl rfl

/-! ### C7: degenerate input -/

lemma btLoop_no_entry (rexit : ℚ) (bars : List SignaledBar) :
    ∀ s : BTState, s.in_position = false → (∀ b ∈ bars, b.signal ≠ 1) →
      btLoop rexit bars s = (s, []) := by
  induction bars with
  | nil => intro s _ _; rfl
  | cons b rest ih =>
    intro s hs hsig
    rw [btLoop, if_neg, if_neg]
    · exact ih s hs fun b' hb' => hsig b' (List.mem_cons_of_mem b hb')
    · rintro ⟨h1, -⟩; rw [hs] at h1; cases h1
    · rintro ⟨-, h2⟩; exact hsig b (List.mem_cons_self b rest) h2

/-- C7: an empty input run through the signal-generation + backtest
pipeline, and more generally any SignaledBar sequence containing no buy
signal, produces the empty trade ledger and the all-zero summary. -/
theorem degenerate_input_summary (p1 p2 p3 : ℕ) (cap rexit : ℚ)
    (df : List SignaledBar) (hcap : cap ≠ 0) (hsig : ∀ b ∈ df, b.signal ≠ 1) :
    backtest_signals (generate_signals [] p1 p2 p3) cap rexit = ([], ⟨0, 0, 0, 0, 0⟩) ∧
    backtest_signals df cap rexit = ([], ⟨0, 0, 0, 0, 0⟩) := by
  have key : ∀ dg : List SignaledBar, (∀ b ∈ dg, b.signal ≠ 1) →
      backtest_signals dg cap rexit = ([], ⟨0, 0, 0, 0, 0⟩) := by
    intro dg hdg
    have h := btLoop_no_entry rexit dg (initState cap) rfl hdg
    simp only [backtest_signals, h, List.map_nil]
    refine Prod.ext rfl ?_
    simp [mkSummary, initState, div_self hcap]
  have h0 : generate_signals [] p1 p2 p3 = [] := by
    simp [generate_signals]
  exact ⟨by rw [h0]; exact key [] (by simp), key df hsig⟩

/-- Witness for C7 at a concrete no-signal input. -/
theorem degenerate_input_summary_witness :
    backtest_signals (generate_signals [] 14 20 50) 100000 70 = ([], ⟨0, 0, 0, 0, 0⟩) ∧
    backtest_signals
        [{ date := 0, close := 10, volume := 1, rsi := PF.nan, sma_short := PF.nan
           sma_long := PF.nan, ma_diff := PF.nan, ma_diff_prev := PF.nan, signal := 0 }]
        100000 70 = ([], ⟨0, 0, 0, 0, 0⟩) :=
  degenerate_input_summary 14 20 50 100000 70 _ (by norm_num) (by decide)

end AlgoTrading
